import Mathlib

/-!
Verification of the marketing-copilot backend core against its specification.

The development shallowly embeds the pure content of
`backend/core/chunking.py`, `backend/core/embeddings.py`,
`backend/core/vector_store.py` and `backend/core/semantic_search.py`:

* Python strings are Lean `String`s; Python `int` is `Int`/`Nat`;
  floats are modelled as exact rationals `ℚ`.
* The SQLite `vectors` table is a `List Row` (insertion order), the FAISS
  `IndexIDMap` is a `List (Int × List ℚ)` of (faiss_id, vector) pairs.
* External libraries (the tiktoken tokenizer, the sentence-transformers
  model) are parameters of the embedded functions.
* Python exceptions become explicit error results; functions that mutate
  the store return the post-state explicitly.
-/

/-! ## Python string primitives used by the code -/

/-- Python whitespace (`str.isspace` over the ASCII range used by the code). -/
def pyIsSpace (c : Char) : Bool :=
  c = ' ' || c = '\t' || c = '\n' || c = '\r' || c = '\x0b' || c = '\x0c'

/-- Python `str.strip()` with no arguments: remove leading and trailing whitespace. -/
def pyStrip (s : String) : String :=
  String.mk (((s.toList.dropWhile pyIsSpace).reverse.dropWhile pyIsSpace).reverse)

/-- Python `str.lower()` (ASCII case folding, which is all the code relies on). -/
def pyLower (s : String) : String :=
  String.mk (s.toList.map Char.toLower)

/-- Python `str.split()` with no arguments: split on whitespace runs, dropping
empty pieces. -/
def pySplit (s : String) : List String :=
  ((s.toList.splitOnP pyIsSpace).map String.mk).filter (fun w => w ≠ "")

/-- Python `needle in hay` substring test on lists of characters. -/
def listContainsSub (needle : List Char) : List Char → Bool
  | [] => decide (needle = [])
  | c :: rest => needle.isPrefixOf (c :: rest) || listContainsSub needle rest

/-! ## chunking.py -/

namespace Chunking

/-- `TextChunk` from `backend/core/chunking.py`.  Character offsets are Python
ints, hence `Int` here. -/
structure TextChunk where
  text : String
  chunk_index : Nat
  start_char : Int
  end_char : Int
  token_count : Nat
deriving DecidableEq, Repr

/-- chunking.py: `[.!?]`. -/
def isSentencePunct (c : Char) : Bool :=
  c = '.' || c = '!' || c = '?'

/-- Scanner realising `re.split(r"[.!?]+(?:\s+|$)", text)`: a separator is a
maximal run of sentence punctuation followed by a whitespace run or the end of
the string; everything between separators is a piece.  When a punctuation run
is not followed by whitespace or the end, no match starts anywhere inside it
(every start inside the run reaches the same following character), so the run
belongs to the current piece.  `fuel` bounds the recursion; the callers pass
`length + 1`, which is never exhausted since every step consumes at least one
character. -/
def splitPiecesAux (fuel : Nat) (l : List Char) (acc : List Char) : List String :=
  match fuel with
  | 0 => [String.mk acc.reverse]
  | fuel + 1 =>
    match l with
    | [] => [String.mk acc.reverse]
    | c :: rest =>
      if isSentencePunct c then
        let afterPunct := List.dropWhile isSentencePunct (c :: rest)
        match afterPunct with
        | [] => [String.mk acc.reverse, ""]
        | d :: _ =>
          if pyIsSpace d then
            String.mk acc.reverse ::
              splitPiecesAux fuel (List.dropWhile pyIsSpace afterPunct) []
          else
            splitPiecesAux fuel afterPunct
              ((List.takeWhile isSentencePunct (c :: rest)).reverse ++ acc)
      else
        splitPiecesAux fuel rest (c :: acc)

/-- `split_text_at_sentences` from chunking.py: regex-split the text at
sentence boundaries, then `[s.strip() for s in sentences if s.strip()]`. -/
def split_text_at_sentences (text : String) : List String :=
  ((splitPiecesAux (text.length + 1) text.toList []).map pyStrip).filter (fun s => s ≠ "")

/-- `split_text_at_words` from chunking.py: greedily pack whitespace-split
words into segments of at most `max_length` characters. -/
def split_text_at_words (text : String) (max_length : Nat) : List String :=
  if text.length ≤ max_length then [text]
  else
    let step := fun (st : List String × String) (word : String) =>
      let test_segment := pyStrip (st.2 ++ " " ++ word)
      if test_segment.length ≤ max_length then (st.1, test_segment)
      else if st.2 ≠ "" then (st.1 ++ [st.2], word) else (st.1, word)
    let fin := (pySplit text).foldl step ([], "")
    if fin.2 ≠ "" then fin.1 ++ [fin.2] else fin.1

/-- Loop state of `chunk_text`: accumulated chunks, the text of the chunk
being built, its start offset, and the running chunk index. -/
structure ChunkState where
  chunks : List TextChunk
  cur : String
  curStart : Int
  idx : Nat
deriving DecidableEq, Repr

/-- Saving the current chunk (the `chunks.append(TextChunk(...))` /
`chunk_index += 1` block of chunk_text, lines 136-149, 181-194 and 205-218).
`tok` is the token counter `get_token_count`. -/
def pushChunk (tok : String → Nat) (st : ChunkState) : ChunkState :=
  { st with
    chunks := st.chunks ++
      [{ text := st.cur, chunk_index := st.idx, start_char := st.curStart,
         end_char := st.curStart + (st.cur.length : Int), token_count := tok st.cur }],
    idx := st.idx + 1 }

/-- The body of the inner `for part in sentence_parts` loop of `chunk_text`
(lines 169-203).  `eo` is `_extract_overlap_text`, a function of the external
tokenizer. -/
def processPart (tok : String → Nat) (eo : String → Nat → String)
    (chunk_size chunk_overlap : Nat) (st : ChunkState) (part : String) : ChunkState :=
  let test_with_part := if st.cur ≠ "" then pyStrip (st.cur ++ " " ++ part) else part
  if tok test_with_part ≤ chunk_size then
    { st with cur := if st.cur ≠ "" then st.cur ++ " " ++ part else part }
  else if st.cur ≠ "" then
    let current_chunk_end := st.curStart + (st.cur.length : Int)
    let st' := pushChunk tok st
    if 0 < chunk_overlap then
      let overlap_text := eo st.cur chunk_overlap
      { st' with cur := pyStrip (overlap_text ++ " " ++ part),
                 curStart := current_chunk_end - (overlap_text.length : Int) }
    else
      { st' with cur := part, curStart := current_chunk_end }
  else st

/-- The body of the outer `for sentence in sentences` loop of `chunk_text`
(lines 127-203). -/
def processSentence (tok : String → Nat) (eo : String → Nat → String)
    (chunk_size chunk_overlap : Nat) (st : ChunkState) (sentence : String) : ChunkState :=
  let test_chunk := pyStrip (st.cur ++ " " ++ sentence)
  if tok test_chunk ≤ chunk_size then
    { st with cur := test_chunk }
  else
    let st1 :=
      if st.cur ≠ "" then
        let current_chunk_end := st.curStart + (st.cur.length : Int)
        let st' := pushChunk tok st
        if 0 < chunk_overlap then
          let overlap_text := eo st.cur chunk_overlap
          { st' with cur := pyStrip (overlap_text ++ " " ++ sentence),
                     curStart := current_chunk_end - (overlap_text.length : Int) }
        else
          { st' with cur := sentence, curStart := current_chunk_end }
      else st
    if chunk_size < tok sentence then
      (split_text_at_words sentence (chunk_size * 4)).foldl
        (processPart tok eo chunk_size chunk_overlap) st1
    else st1

/-- `chunk_text` from chunking.py, parametric in the external tokenizer:
`tok` is `get_token_count` and `eo` is `_extract_overlap_text` (both wrap
tiktoken).  Defaults in the source: `chunk_size = 500`, `chunk_overlap = 50`. -/
def chunk_text (tok : String → Nat) (eo : String → Nat → String)
    (chunk_size chunk_overlap : Nat) (text : String) : List TextChunk :=
  if text = "" ∨ pyStrip text = "" then []
  else
    let sentences := split_text_at_sentences text
    let st := sentences.foldl (processSentence tok eo chunk_size chunk_overlap)
      { chunks := [], cur := "", curStart := 0, idx := 0 }
    if st.cur ≠ "" then (pushChunk tok st).chunks else st.chunks

/-- The `except` fallback branch of `_extract_overlap_text`: the last
`overlap_tokens * 4` characters of the text.  Used to instantiate the `eo`
parameter on concrete inputs; the theorems about `chunk_text` hold for every
`eo`. -/
def extract_overlap_fallback (text : String) (overlap_tokens : Nat) : String :=
  String.mk (text.toList.drop (text.length - overlap_tokens * 4))

/-- A concrete token counter used to evaluate `chunk_text` on tiny inputs.
On the inputs of the concrete theorems below, the only facts about the real
cl100k_base counter that `chunk_text` branches on are of the form
`tok s ≤ 500`, which hold both for cl100k_base and for `String.length`,
so the produced chunk spans coincide. -/
def tokLen (s : String) : Nat := s.length

end Chunking

/-! ## embeddings.py

`EmbeddingGenerator` delegates to an external sentence-transformers model.
The model is a parameter: `encode` is its action on one text (the code's
`model.encode`, batched calls modelled as applying `encode` to each entry)
and `dim` is `model.get_sentence_embedding_dimension()`. -/

namespace Embeddings

/-- `EmbeddingGenerator.generate_embedding` from embeddings.py. -/
def generate_embedding (encode : String → List ℚ) (dim : Nat) (text : String) : List ℚ :=
  if pyStrip text = "" then List.replicate dim 0
  else encode text

/-- The index positions of the non-empty texts (`indices` in
`generate_embeddings_batch`). -/
def nonEmptyIndices (texts : List String) : List Nat :=
  ((texts.enum).filter (fun p => pyStrip p.2 ≠ "")).map Prod.fst

/-- The re-interleaving loop of `generate_embeddings_batch` (lines 79-87):
for `i` in `range(n)`, append `embeddings[embedding_idx]` when `i in indices`
(advancing `embedding_idx`), else append a zero vector.  The first `Nat`
argument counts the remaining iterations. -/
def interleaveLoop (dim : Nat) (indices : List Nat) (embeddings : List (List ℚ)) :
    Nat → Nat → Nat → List (List ℚ)
  | 0, _, _ => []
  | rem + 1, i, embedding_idx =>
    if indices.contains i then
      embeddings.getD embedding_idx [] ::
        interleaveLoop dim indices embeddings rem (i + 1) (embedding_idx + 1)
    else
      List.replicate dim 0 :: interleaveLoop dim indices embeddings rem (i + 1) embedding_idx

/-- `EmbeddingGenerator.generate_embeddings_batch` from embeddings.py. -/
def generate_embeddings_batch (encode : String → List ℚ) (dim : Nat)
    (texts : List String) : List (List ℚ) :=
  if texts = [] then []
  else
    let non_empty_texts := texts.filter (fun t => pyStrip t ≠ "")
    let indices := nonEmptyIndices texts
    if non_empty_texts = [] then List.replicate texts.length (List.replicate dim 0)
    else
      let embeddings := non_empty_texts.map encode
      interleaveLoop dim indices embeddings texts.length 0 0

end Embeddings

/-! ## vector_store.py -/

namespace VectorStore

/-- Document metadata: the items of the Python `dict` stored as JSON. -/
abbrev Metadata := List (String × String)

/-- `VectorDocument` from vector_store.py.  UUIDs are modelled by their
string form (the store only ever uses `str(uuid)`). -/
structure VectorDocument where
  id : String
  asset_id : String
  project_id : String
  chunk_index : Nat
  text : String
  embedding : List ℚ
  metadata : Option Metadata := none
deriving DecidableEq, Repr

/-- `SearchResult` from vector_store.py. -/
structure SearchResult where
  document : VectorDocument
  score : ℚ
deriving DecidableEq, Repr

/-- A row of the SQLite `vectors` table. -/
structure Row where
  id : String
  asset_id : String
  project_id : String
  chunk_index : Nat
  text : String
  embedding : List ℚ
  metadata : Option Metadata
  faiss_id : Int
deriving DecidableEq, Repr

/-- Errors surfaced as `VectorStoreError` (and the numpy `ValueError` that
`add_documents` wraps into one). -/
inductive VSErr where
  /-- "Embedding dimension mismatch: expected {dim}, got {got}" wrapped in
  "Failed to add documents: ...". -/
  | dimMismatch (expected got : Nat)
  /-- "Query embedding dimension mismatch: expected {dim}, got {got}". -/
  | queryDimMismatch (expected got : Nat)
  /-- `np.array` rejecting a ragged batch, wrapped in
  "Failed to add documents: ...". -/
  | invalidBatch
deriving DecidableEq, Repr

/-- State of `FAISSSQLiteVectorStore`: the configured dimension, the SQLite
`vectors` table, and the FAISS `IndexIDMap` contents as (faiss_id, vector)
pairs in insertion order. -/
structure Store where
  dimension : Nat
  table : List Row
  index : List (Int × List ℚ)
deriving DecidableEq, Repr

/-- `SELECT MAX(faiss_id) FROM vectors`, with `-1` for an empty table
(`_get_next_faiss_id` then returns `max_id + 1`). -/
def maxFaissId (table : List Row) : Int :=
  table.foldr (fun r m => max r.faiss_id m) (-1)

/-- `_get_next_faiss_id` from vector_store.py. -/
def get_next_faiss_id (s : Store) : Int :=
  maxFaissId s.table + 1

/-- SQLite `INSERT OR REPLACE`: delete every row conflicting on the primary
key `id` or on the unique `faiss_id`, then append the new row. -/
def insertOrReplace (table : List Row) (r : Row) : List Row :=
  table.filter (fun x => x.id ≠ r.id ∧ x.faiss_id ≠ r.faiss_id) ++ [r]

/-- The row inserted for a document by `add_documents`. -/
def rowOfDoc (d : VectorDocument) (fid : Int) : Row :=
  { id := d.id, asset_id := d.asset_id, project_id := d.project_id,
    chunk_index := d.chunk_index, text := d.text, embedding := d.embedding,
    metadata := d.metadata, faiss_id := fid }

/-- `FAISSSQLiteVectorStore.add_documents` from vector_store.py.  Returns the
raised error (if any) together with the post-state; on error the SQLite
transaction is rolled back and the FAISS index has not been touched (both
failure points precede `index.add_with_ids`), so the post-state is the input
state.  `np.array` fails on a ragged batch; otherwise the common embedding
length is `vectors.shape[1]` and is validated against the dimension. -/
def add_documents (s : Store) (documents : List VectorDocument) :
    Option VSErr × Store :=
  match documents with
  | [] => (none, s)
  | d0 :: _ =>
    if documents.all (fun d => d.embedding.length = d0.embedding.length) then
      if d0.embedding.length = s.dimension then
        let start_id := get_next_faiss_id s
        let newIndex := s.index ++
          documents.enum.map (fun p => (start_id + (p.1 : Int), p.2.embedding))
        let newTable := documents.enum.foldl
          (fun t p => insertOrReplace t (rowOfDoc p.2 (start_id + (p.1 : Int)))) s.table
        (none, { s with table := newTable, index := newIndex })
      else (some (VSErr.dimMismatch s.dimension d0.embedding.length), s)
    else (some VSErr.invalidBatch, s)

/-- Squared L2 distance, the metric FAISS's `IndexFlatL2` reports. -/
def l2sq (a b : List ℚ) : ℚ :=
  ((a.zip b).map (fun p => (p.1 - p.2) * (p.1 - p.2))).sum

/-- `index.search(query, k)` for the flat index: all stored vectors ranked by
ascending distance to the query, truncated to `k`, as (faiss_id, distance)
pairs. -/
def faissSearch (index : List (Int × List ℚ)) (query : List ℚ) (k : Nat) :
    List (Int × ℚ) :=
  (List.insertionSort (fun a b : Int × ℚ => a.2 ≤ b.2)
    (index.map (fun p => (p.1, l2sq query p.2)))).take k

/-- The SQL row filter of `search`: faiss_id among the candidates, plus the
optional project/asset equality filters. -/
def rowMatches (valid_faiss_ids : List Int) (project_id asset_id : Option String)
    (r : Row) : Bool :=
  valid_faiss_ids.contains r.faiss_id &&
  (match project_id with | none => true | some p => r.project_id = p) &&
  (match asset_id with | none => true | some a => r.asset_id = a)

/-- The `VectorDocument` reconstructed by `search` (the embedding is dropped:
"Not needed in result"). -/
def docOfRow (r : Row) : VectorDocument :=
  { id := r.id, asset_id := r.asset_id, project_id := r.project_id,
    chunk_index := r.chunk_index, text := r.text, embedding := [],
    metadata := r.metadata }

/-- `FAISSSQLiteVectorStore.search` from vector_store.py.  Empty index short
circuits to `[]` before the dimension check; then `min(top_k * 3, ntotal)`
candidates are fetched, joined against the table with the filters, scored by
`1 / (1 + distance)`, sorted descending and truncated to `top_k`.  The
`doc_map` dict keeps the last row per faiss_id, hence the reversed lookup. -/
def search (s : Store) (query_embedding : List ℚ) (top_k : Nat)
    (project_id asset_id : Option String) : Except VSErr (List SearchResult) :=
  if s.index.length = 0 then .ok []
  else if query_embedding.length ≠ s.dimension then
    .error (VSErr.queryDimMismatch s.dimension query_embedding.length)
  else
    let k := min (top_k * 3) s.index.length
    let cands := faissSearch s.index query_embedding k
    let valid_faiss_ids := (cands.map Prod.fst).filter (fun i => 0 ≤ i)
    if valid_faiss_ids = [] then .ok []
    else
      let rows := s.table.filter (rowMatches valid_faiss_ids project_id asset_id)
      let results := cands.filterMap (fun c : Int × ℚ =>
        if 0 ≤ c.1 then
          match rows.reverse.find? (fun r => r.faiss_id = c.1) with
          | some r => some { document := docOfRow r, score := 1 / (1 + c.2) }
          | none => none
        else none)
      .ok ((List.insertionSort (fun a b : SearchResult => b.score ≤ a.score) results).take top_k)

/-- `_rebuild_faiss_index` from vector_store.py: re-add every stored vector
under its existing `faiss_id`, in `ORDER BY faiss_id` order. -/
def rebuild_faiss_index (table : List Row) : List (Int × List ℚ) :=
  List.insertionSort (fun a b : Int × List ℚ => a.1 ≤ b.1)
    (table.map (fun r => (r.faiss_id, r.embedding)))

/-- `FAISSSQLiteVectorStore.delete_by_asset` from vector_store.py: an early
return when no row matches, else delete the matching rows and rebuild the
index from the survivors. -/
def delete_by_asset (s : Store) (asset_id : String) : Store :=
  if s.table.all (fun r => r.asset_id ≠ asset_id) then s
  else
    let remaining := s.table.filter (fun r => r.asset_id ≠ asset_id)
    { s with table := remaining, index := rebuild_faiss_index remaining }

/-- `FAISSSQLiteVectorStore.delete_by_project` from vector_store.py (no early
return: it always deletes and rebuilds). -/
def delete_by_project (s : Store) (project_id : String) : Store :=
  let remaining := s.table.filter (fun r => r.project_id ≠ project_id)
  { s with table := remaining, index := rebuild_faiss_index remaining }

/-- `FAISSSQLiteVectorStore.get_document_count` from vector_store.py. -/
def get_document_count (s : Store) (project_id : Option String) : Nat :=
  match project_id with
  | none => s.table.length
  | some p => (s.table.filter (fun r => r.project_id = p)).length

end VectorStore

/-! ## semantic_search.py -/

namespace SemanticSearch

open VectorStore

/-- Errors surfaced as `SemanticSearchError` (the orchestrator wraps the
vector store's errors). -/
inductive SSErr where
  | vectorStore (e : VSErr)
deriving DecidableEq, Repr

/-- The per-result score computed inside `_rerank_results` (lines 118-152 of
semantic_search.py): base similarity plus keyword boost, length score and
metadata boost.  Float literals `0.2 / 0.1 / 0.05 / 0.02` become the exact
rationals `1/5, 1/10, 1/20, 1/50`. -/
def rerankScore (query : String) (result : SearchResult) : ℚ :=
  let similarity_score := result.score
  let text := pyLower result.document.text
  let query_lower := pyLower query
  let query_words := pySplit query_lower
  let matched_words :=
    (query_words.filter (fun w => listContainsSub w.toList text.toList)).length
  let keyword_boost : ℚ :=
    if 0 < matched_words then
      min (1/5 : ℚ) ((matched_words : ℚ) / (query_words.length : ℚ) * (1/5))
    else 0
  let text_length := result.document.text.length
  let length_score : ℚ :=
    if 100 ≤ text_length ∧ text_length ≤ 500 then 1/10
    else if text_length < 50 then -(1/20)
    else if 1000 < text_length then -(1/20)
    else 0
  let metadata_boost : ℚ :=
    match result.document.metadata with
    | some md => if 0 < md.length then min (1/10 : ℚ) ((md.length : ℚ) * (1/50)) else 0
    | none => 0
  similarity_score + keyword_boost + length_score + metadata_boost

/-- `SemanticSearchOrchestrator._rerank_results` from semantic_search.py:
rebuild each result with the adjusted score, then sort descending (Python's
`list.sort` is stable; so is insertion sort, so the outputs agree). -/
def rerank_results (query : String) (results : List SearchResult) : List SearchResult :=
  if results = [] then results
  else
    let reranked := results.map (fun r =>
      { document := r.document, score := rerankScore query r })
    List.insertionSort (fun a b : SearchResult => b.score ≤ a.score) reranked

/-- `SemanticSearchOrchestrator.search` from semantic_search.py, parametric in
the embedding model `embed` (`generate_embedding` applied to a non-empty
text).  The second component records the texts passed to the embedding
generator, so "no embedding call" is statable. -/
def semantic_search (embed : String → List ℚ) (s : Store) (query : String)
    (project_id asset_id : Option String) (top_k : Nat) (rerank : Bool) :
    Except SSErr (List SearchResult) × List String :=
  if query = "" ∨ pyStrip query = "" then (.ok [], [])
  else
    let stripped := pyStrip query
    let query_embedding := embed stripped
    let search_k := if rerank then top_k * 3 else top_k
    match VectorStore.search s query_embedding search_k project_id asset_id with
    | .error e => (.error (SSErr.vectorStore e), [stripped])
    | .ok results =>
      if results = [] then (.ok [], [stripped])
      else
        let results2 :=
          if rerank ∧ 1 < results.length then rerank_results query results else results
        (.ok (results2.take top_k), [stripped])

end SemanticSearch

/-! ## Specification-side definitions

These follow the wording of the specification (not the source); they exist to
be compared with the source-side definitions above. -/

namespace SemanticSearch

/-- The adjusted score as the specification words it: base similarity, plus a
keyword boost of `min(0.2, fraction-of-query-words-found * 0.2)`, plus the
length adjustment, plus a metadata boost of `min(0.1, 0.02 per key)`. -/
def claim_adjusted_score (query : String) (r : VectorStore.SearchResult) : ℚ :=
  r.score
  + min (1/5 : ℚ)
      ((((pySplit (pyLower query)).filter
          (fun w => listContainsSub w.toList (pyLower r.document.text).toList)).length : ℚ) /
        ((pySplit (pyLower query)).length : ℚ) * (1/5))
  + (if 100 ≤ r.document.text.length ∧ r.document.text.length ≤ 500 then (1/10 : ℚ)
     else if r.document.text.length < 50 then -(1/20)
     else if 1000 < r.document.text.length then -(1/20)
     else 0)
  + (match r.document.metadata with
     | none => 0
     | some md => min (1/10 : ℚ) ((md.length : ℚ) * (1/50)))

/-- Modelled from the spec: the search pipeline as claim C8 words it —
identical to `semantic_search` except that re-ranking is applied whenever
`rerank` is enabled (the source additionally requires more than one result). -/
def semantic_search_claimed (embed : String → List ℚ) (s : VectorStore.Store)
    (query : String) (project_id asset_id : Option String) (top_k : Nat)
    (rerank : Bool) : Except SSErr (List VectorStore.SearchResult) :=
  if query = "" ∨ pyStrip query = "" then .ok []
  else
    match VectorStore.search s (embed (pyStrip query))
        (if rerank then top_k * 3 else top_k) project_id asset_id with
    | .error e => .error (SSErr.vectorStore e)
    | .ok results =>
      .ok ((if rerank then rerank_results query results else results).take top_k)

end SemanticSearch

namespace Chunking

/-- The invariant maintained by the `chunk_text` loop: the running index
equals the number of saved chunks, and every saved chunk has consecutive
`chunk_index`, a non-degenerate span, and a positive token count. -/
def ChunkInv (st : ChunkState) : Prop :=
  st.idx = st.chunks.length ∧
  ∀ j (hj : j < st.chunks.length),
    (st.chunks.get ⟨j, hj⟩).chunk_index = j ∧
    (st.chunks.get ⟨j, hj⟩).start_char < (st.chunks.get ⟨j, hj⟩).end_char ∧
    0 < (st.chunks.get ⟨j, hj⟩).token_count

end Chunking

/-! ## Concrete instances used to evaluate the model -/

/-- A degenerate one-dimensional embedding model. -/
def embed0 : String → List ℚ := fun _ => [0]

/-- A one-dimensional embedding model that depends on its input. -/
def encodeLen : String → List ℚ := fun t => [(t.length : ℚ)]

/-- A document for asset `assetA`. -/
def docA : VectorStore.VectorDocument :=
  { id := "a_0", asset_id := "assetA", project_id := "proj", chunk_index := 0,
    text := "hello", embedding := [0] }

/-- A document for asset `assetB`. -/
def docB : VectorStore.VectorDocument :=
  { id := "b_0", asset_id := "assetB", project_id := "proj", chunk_index := 0,
    text := "world", embedding := [0] }

/-- A stored row with text "x". -/
def rowX : VectorStore.Row :=
  { id := "x_0", asset_id := "assetX", project_id := "projX", chunk_index := 0,
    text := "x", embedding := [0], metadata := none, faiss_id := 0 }

/-- A second version of the `rowX` document: same id `"x_0"`, new content. -/
def docX2 : VectorStore.VectorDocument :=
  { id := "x_0", asset_id := "assetX", project_id := "projX", chunk_index := 1,
    text := "y", embedding := [1/2] }

/-- An empty one-dimensional store. -/
def storeEmpty1 : VectorStore.Store := { dimension := 1, table := [], index := [] }

/-- A one-dimensional store holding exactly `rowX`. -/
def storeX : VectorStore.Store :=
  { dimension := 1, table := [rowX], index := [(0, [0])] }

/-- Decidable equality for `Except`, so that concrete runs of the model can be
checked by `decide`. -/
instance exceptDecEq {ε α : Type} [DecidableEq ε] [DecidableEq α] :
    DecidableEq (Except ε α) := fun x y =>
  match x, y with
  | .ok a, .ok b =>
    if h : a = b then isTrue (by rw [h])
    else isFalse (by intro hh; cases hh; exact h rfl)
  | .error a, .error b =>
    if h : a = b then isTrue (by rw [h])
    else isFalse (by intro hh; cases hh; exact h rfl)
  | .ok _, .error _ => isFalse (by intro hh; cases hh)
  | .error _, .ok _ => isFalse (by intro hh; cases hh)

/-! ## Helper lemmas -/

open VectorStore SemanticSearch Embeddings Chunking

theorem string_length_pos {s : String} (h : s ≠ "") : 0 < s.length := by
  cases s with
  | mk data =>
    simp only [String.length]
    rw [List.length_pos]
    intro hd
    exact h (by simp [hd])

theorem mem_le_maxFaissId (r : Row) (t : List Row) (h : r ∈ t) :
    r.faiss_id ≤ maxFaissId t := by
  induction t with
  | nil => cases h
  | cons x xs ih =>
    show r.faiss_id ≤ max x.faiss_id (maxFaissId xs)
    rcases List.mem_cons.mp h with h1 | h2
    · subst h1; exact le_max_left _ _
    · exact le_trans (ih h2) (le_max_right _ _)

/-! ## C3 -/

/-- C3: `add_documents` called with a non-empty batch containing a document
whose embedding length differs from the store's dimension raises a validation
error covering the whole batch and leaves the store unchanged: the table (and
hence `get_document_count` and retrievability) is exactly as before. -/
theorem add_documents_rejects_dimension_mismatch
    (s : Store) (docs : List VectorDocument) (hne : docs ≠ [])
    (hbad : ∃ d ∈ docs, d.embedding.length ≠ s.dimension) :
    (∃ e, add_documents s docs = (some e, s)) ∧
    (add_documents s docs).2 = s ∧
    get_document_count (add_documents s docs).2 none = get_document_count s none := by
  obtain ⟨d, hd, hdlen⟩ := hbad
  cases docs with
  | nil => exact absurd rfl hne
  | cons d0 rest =>
    by_cases hall : (d0 :: rest).all (fun d => d.embedding.length = d0.embedding.length)
    · have h0 : ¬(d0.embedding.length = s.dimension) := by
        have h1 := List.all_eq_true.mp hall d hd
        simp only [decide_eq_true_eq] at h1
        omega
      refine ⟨⟨VSErr.dimMismatch s.dimension d0.embedding.length, ?_⟩, ?_, ?_⟩ <;>
        simp [add_documents, hall, h0]
    · refine ⟨⟨VSErr.invalidBatch, ?_⟩, ?_, ?_⟩ <;> simp [add_documents, hall]

/-- C3 witness. -/
theorem add_documents_rejects_dimension_mismatch_witness :
    (∃ e, add_documents storeX [docA, { docB with embedding := [0, 0] }] = (some e, storeX)) ∧
    (add_documents storeX [docA, { docB with embedding := [0, 0] }]).2 = storeX ∧
    get_document_count (add_documents storeX [docA, { docB with embedding := [0, 0] }]).2 none =
      get_document_count storeX none :=
  add_documents_rejects_dimension_mismatch storeX _ (by decide)
    ⟨{ docB with embedding := [0, 0] }, by decide, by decide⟩

/-! ## C9 -/

/-- C9 counterexample: on an *empty* store, a query whose length differs from
the configured dimension does not raise: `search` returns `ok []` (the empty
index short-circuit precedes the dimension check), contradicting the claim
that the mismatch is fatal "including when the store is empty". -/
theorem search_wrong_dimension_empty_store_no_error :
    search storeEmpty1 [0, 0] 10 none none = Except.ok [] ∧
    ([0, 0] : List ℚ).length ≠ storeEmpty1.dimension := by decide

/-- C9 (amended): when the index is non-empty, a query embedding whose length
differs from the configured dimension makes `search` raise the
dimension-mismatch validation error, regardless of filters or `top_k`. -/
theorem search_nonempty_store_dimension_mismatch_error
    (s : Store) (q : List ℚ) (top_k : Nat) (pid aid : Option String)
    (hne : s.index ≠ []) (hdim : q.length ≠ s.dimension) :
    search s q top_k pid aid = .error (VSErr.queryDimMismatch s.dimension q.length) := by
  have hlen : ¬(s.index.length = 0) := by
    simpa [List.length_eq_zero] using hne
  simp [search, hlen, hdim]

/-- C9 witness. -/
theorem search_nonempty_store_dimension_mismatch_error_witness :
    search storeX [] 10 none none = .error (VSErr.queryDimMismatch 1 0) :=
  search_nonempty_store_dimension_mismatch_error storeX [] 10 none none
    (by decide) (by decide)

/-! ## C1 -/

/-- C1 counterexample: `faiss_id 0` is assigned to `docA`, the asset is
deleted, and the next `add_documents` assigns the same `faiss_id 0` to
`docB` — an id *is* reassigned to a later document once the documents holding
it are deleted, because `_get_next_faiss_id` computes `MAX(faiss_id)` over
the surviving rows only. -/
theorem faiss_id_reassigned_after_delete :
    ((add_documents storeEmpty1 [docA]).2.table.map (fun r => (r.id, r.faiss_id)) =
      [("a_0", 0)]) ∧
    (delete_by_asset (add_documents storeEmpty1 [docA]).2 "assetA").table = [] ∧
    ((add_documents (delete_by_asset (add_documents storeEmpty1 [docA]).2 "assetA")
        [docB]).2.table.map (fun r => (r.id, r.faiss_id)) = [("b_0", 0)]) := by
  decide

/-- C1 (amended): every successful `add_documents` call assigns consecutive
fresh ids starting at `MAX(faiss_id) + 1` over the rows present at call time,
so each new id is strictly greater than every `faiss_id` currently stored;
ids are therefore never shared by coexisting documents, but may be reused
after a deletion removes the maximum. -/
theorem add_documents_assigns_next_faiss_id
    (s s' : Store) (docs : List VectorDocument)
    (h : add_documents s docs = (none, s')) :
    s'.index = s.index ++
      docs.enum.map (fun p => (get_next_faiss_id s + (p.1 : Int), p.2.embedding)) ∧
    ∀ r ∈ s.table, r.faiss_id < get_next_faiss_id s := by
  constructor
  · cases docs with
    | nil =>
      simp only [add_documents] at h
      cases h
      simp
    | cons d0 rest =>
      simp only [add_documents] at h
      split at h
      · split at h
        · cases h; rfl
        · cases h
      · cases h
  · intro r hr
    have := mem_le_maxFaissId r s.table hr
    unfold get_next_faiss_id
    omega

/-- C1 witness. -/
theorem add_documents_assigns_next_faiss_id_witness :
    ((add_documents storeEmpty1 [docA]).2.index = storeEmpty1.index ++
      [docA].enum.map (fun p => (get_next_faiss_id storeEmpty1 + (p.1 : Int), p.2.embedding))) ∧
    (∀ r ∈ storeEmpty1.table, r.faiss_id < get_next_faiss_id storeEmpty1) :=
  add_documents_assigns_next_faiss_id storeEmpty1 (add_documents storeEmpty1 [docA]).2 [docA]
    (by decide)


/-- Reduction of a successful singleton `add_documents`. -/
theorem add_documents_singleton_ok (s : Store) (D : VectorDocument)
    (hdim : D.embedding.length = s.dimension) :
    add_documents s [D] =
      (none, { s with
        table := insertOrReplace s.table (rowOfDoc D (get_next_faiss_id s)),
        index := s.index ++ [(get_next_faiss_id s, D.embedding)] }) := by
  simp [add_documents, hdim, List.enum]

/-! ## C10 -/

/-- C10: adding a document whose `id` already exists does not raise: the
relational row is replaced (`INSERT OR REPLACE`), so the table's size is
unchanged, yet a fresh `faiss_id` (`MAX + 1`, greater than every stored id)
is assigned to the new copy, and the index keeps every previous
(faiss_id, vector) pair — in particular the old copy's vector stays indexed
under its old id. -/
theorem add_documents_replaces_duplicate_id
    (s : Store) (D : VectorDocument) (r0 : Row)
    (hdim : D.embedding.length = s.dimension)
    (huniq : s.table.filter (fun r => r.id = D.id) = [r0]) :
    ∃ s', add_documents s [D] = (none, s') ∧
      s'.table.length = s.table.length ∧
      rowOfDoc D (get_next_faiss_id s) ∈ s'.table ∧
      (∀ r ∈ s.table, r.faiss_id < get_next_faiss_id s) ∧
      s'.index = s.index ++ [(get_next_faiss_id s, D.embedding)] := by
  have hfresh : ∀ r ∈ s.table, r.faiss_id < get_next_faiss_id s := by
    intro r hr
    have := mem_le_maxFaissId r s.table hr
    unfold get_next_faiss_id
    omega
  refine ⟨_, add_documents_singleton_ok s D hdim, ?_, ?_, hfresh, rfl⟩
  · show (insertOrReplace s.table (rowOfDoc D (get_next_faiss_id s))).length = s.table.length
    unfold insertOrReplace
    rw [List.length_append]
    have hcongr :
        s.table.filter (fun x =>
            x.id ≠ (rowOfDoc D (get_next_faiss_id s)).id ∧
            x.faiss_id ≠ (rowOfDoc D (get_next_faiss_id s)).faiss_id)
        = s.table.filter (fun x => !(decide (x.id = D.id))) := by
      apply List.filter_congr
      intro x hx
      have hxf : x.faiss_id ≠ get_next_faiss_id s := ne_of_lt (hfresh x hx)
      simp [rowOfDoc, hxf]
    rw [hcongr]
    have hcount := List.length_eq_length_filter_add (l := s.table)
      (fun x => decide (x.id = D.id))
    rw [huniq] at hcount
    simp only [List.length_cons, List.length_nil, List.length_singleton] at hcount ⊢
    omega
  · show rowOfDoc D (get_next_faiss_id s) ∈ insertOrReplace s.table (rowOfDoc D (get_next_faiss_id s))
    unfold insertOrReplace
    exact List.mem_append_right _ (List.mem_singleton.mpr rfl)

/-- C10 witness: re-adding a document with the already-present id "x_0". -/
theorem add_documents_replaces_duplicate_id_witness :
    ∃ s', add_documents storeX [docX2] = (none, s') ∧
      s'.table.length = storeX.table.length ∧
      rowOfDoc docX2 (get_next_faiss_id storeX) ∈ s'.table ∧
      (∀ r ∈ storeX.table, r.faiss_id < get_next_faiss_id storeX) ∧
      s'.index = storeX.index ++ [(get_next_faiss_id storeX, docX2.embedding)] :=
  add_documents_replaces_duplicate_id storeX docX2 rowX (by decide) (by decide)

/-! ## C7 -/

/-- When no stored row has the requested asset, an asset-filtered search
returns the empty list (whatever the index holds). -/
theorem search_no_matching_asset (s : Store) (q : List ℚ) (top_k : Nat)
    (pid : Option String) (X : String)
    (hq : q.length = s.dimension)
    (hX : ∀ r ∈ s.table, r.asset_id ≠ X) :
    search s q top_k pid (some X) = .ok [] := by
  have hrows : ∀ ids : List Int,
      s.table.filter (rowMatches ids pid (some X)) = [] := by
    intro ids
    apply List.filter_eq_nil_iff.mpr
    intro r hr
    simp [rowMatches, hX r hr]
  unfold search
  by_cases h0 : s.index.length = 0
  · simp [h0]
  · rw [if_neg h0, if_neg (by simp [hq])]
    by_cases hvalid :
        ((faissSearch s.index q (min (top_k * 3) s.index.length)).map Prod.fst).filter
          (fun i => 0 ≤ i) = []
    · simp [hvalid]
    · simp [hvalid, hrows]
      right
      have hfm : (faissSearch s.index q (top_k * 3 ⊓ s.index.length)).filterMap
          (fun _ : Int × ℚ => (none : Option SearchResult)) = [] :=
        List.filterMap_eq_nil_iff.mpr (fun a _ => rfl)
      rw [hfm]
      simp [List.insertionSort]

/-- C7: after `delete_by_asset(X)` the count drops by exactly the number of
rows with `asset_id = X`, an asset-X-filtered search returns empty, no
surviving row has asset X, and (when a deletion actually happened) the index
is rebuilt from the surviving rows with each survivor keeping its existing
`faiss_id` unchanged. -/
theorem delete_by_asset_spec
    (s : Store) (X : String) (q : List ℚ) (top_k : Nat) (pid : Option String)
    (hq : q.length = s.dimension) :
    (get_document_count (delete_by_asset s X) none +
      (s.table.filter (fun r => r.asset_id = X)).length = get_document_count s none) ∧
    search (delete_by_asset s X) q top_k pid (some X) = .ok [] ∧
    (∀ r ∈ (delete_by_asset s X).table, r.asset_id ≠ X) ∧
    ((∃ r0 ∈ s.table, r0.asset_id = X) →
      (delete_by_asset s X).index = rebuild_faiss_index ((delete_by_asset s X).table) ∧
      ∀ r ∈ (delete_by_asset s X).table,
        (r.faiss_id, r.embedding) ∈ (delete_by_asset s X).index) := by
  by_cases hall : s.table.all (fun r => r.asset_id ≠ X)
  · have hXnone : ∀ r ∈ s.table, r.asset_id ≠ X := by
      intro r hr
      simpa using List.all_eq_true.mp hall r hr
    have hdel : delete_by_asset s X = s := by
      unfold delete_by_asset
      rw [if_pos hall]
    refine ⟨?_, ?_, ?_, ?_⟩
    · rw [hdel, List.filter_eq_nil_iff.mpr (by intro r hr; simpa using hXnone r hr)]
      rfl
    · rw [hdel]
      exact search_no_matching_asset s q top_k pid X hq hXnone
    · rw [hdel]; exact hXnone
    · rintro ⟨r0, hr0, hr0X⟩
      exact absurd hr0X (hXnone r0 hr0)
  · have hdel : delete_by_asset s X =
        { s with table := s.table.filter (fun r => r.asset_id ≠ X),
                 index := rebuild_faiss_index (s.table.filter (fun r => r.asset_id ≠ X)) } := by
      unfold delete_by_asset
      rw [if_neg hall]
    have hrem : ∀ r ∈ s.table.filter (fun r => r.asset_id ≠ X), r.asset_id ≠ X := by
      intro r hr
      have := (List.mem_filter.mp hr).2
      simpa using this
    refine ⟨?_, ?_, ?_, ?_⟩
    · rw [hdel]
      show (s.table.filter (fun r => r.asset_id ≠ X)).length +
        (s.table.filter (fun r => r.asset_id = X)).length = s.table.length
      have hcount := List.length_eq_length_filter_add (l := s.table)
        (fun r => decide (r.asset_id = X))
      have hcongr : s.table.filter (fun r => r.asset_id ≠ X) =
          s.table.filter (fun r => !(decide (r.asset_id = X))) := by
        apply List.filter_congr
        intro r _
        simp
      rw [hcongr]
      omega
    · rw [hdel]
      exact search_no_matching_asset _ q top_k pid X hq hrem
    · rw [hdel]; exact hrem
    · intro _
      rw [hdel]
      refine ⟨rfl, ?_⟩
      intro r hr
      show (r.faiss_id, r.embedding) ∈
        rebuild_faiss_index (s.table.filter (fun r => r.asset_id ≠ X))
      unfold rebuild_faiss_index
      exact ((List.perm_insertionSort _ _).mem_iff).mpr
        (List.mem_map_of_mem _ hr)

/-- C7 witness. -/
theorem delete_by_asset_spec_witness :
    (get_document_count (delete_by_asset storeX "assetX") none +
      (storeX.table.filter (fun r => r.asset_id = "assetX")).length =
        get_document_count storeX none) ∧
    search (delete_by_asset storeX "assetX") [0] 10 none (some "assetX") = .ok [] ∧
    (∀ r ∈ (delete_by_asset storeX "assetX").table, r.asset_id ≠ "assetX") ∧
    ((∃ r0 ∈ storeX.table, r0.asset_id = "assetX") →
      (delete_by_asset storeX "assetX").index =
        rebuild_faiss_index ((delete_by_asset storeX "assetX").table) ∧
      ∀ r ∈ (delete_by_asset storeX "assetX").table,
        (r.faiss_id, r.embedding) ∈ (delete_by_asset storeX "assetX").index) :=
  delete_by_asset_spec storeX "assetX" [0] 10 none (by decide)

/-! ## C4 -/

/-- Each entry of the result list built by `search` arises from one fetched
candidate: non-negative id, score `1 / (1 + distance)`, and the SQL filters
satisfied. -/
theorem mem_search_results
    (cands : List (Int × ℚ)) (table : List Row) (valid : List Int)
    (pid aid : Option String) (r : SearchResult)
    (hr : r ∈ cands.filterMap (fun c : Int × ℚ =>
      if 0 ≤ c.1 then
        match (table.filter (rowMatches valid pid aid)).reverse.find?
            (fun row => row.faiss_id = c.1) with
        | some row => some { document := docOfRow row, score := 1 / (1 + c.2) }
        | none => none
      else none)) :
    ∃ c ∈ cands, 0 ≤ c.1 ∧ r.score = 1 / (1 + c.2) ∧
      (∀ p, pid = some p → r.document.project_id = p) ∧
      (∀ a, aid = some a → r.document.asset_id = a) := by
  obtain ⟨c, hc, hfc⟩ := List.mem_filterMap.mp hr
  refine ⟨c, hc, ?_⟩
  by_cases h1 : 0 ≤ c.1
  · rw [if_pos h1] at hfc
    cases hfind : (table.filter (rowMatches valid pid aid)).reverse.find?
        (fun row => row.faiss_id = c.1) with
    | none => rw [hfind] at hfc; cases hfc
    | some row =>
      rw [hfind] at hfc
      cases hfc
      have hrowmem : row ∈ table.filter (rowMatches valid pid aid) :=
        List.mem_reverse.mp (List.mem_of_find?_eq_some hfind)
      have hmatch := (List.mem_filter.mp hrowmem).2
      simp only [rowMatches, Bool.and_eq_true] at hmatch
      refine ⟨h1, rfl, ?_, ?_⟩
      · intro p hp
        subst hp
        have := hmatch.1.2
        simpa [docOfRow] using this
      · intro a ha
        subst ha
        have := hmatch.2
        simpa [docOfRow] using this
  · rw [if_neg h1] at hfc
    cases hfc

/-- C4: with a query of the configured dimension, `search` never raises; it
fetches `min(top_k * 3, ntotal)` candidates from the index, scores each
surviving candidate `1 / (1 + distance)`, filters by project/asset, returns a
descending-by-score list truncated to `top_k`, and returns `[]` when the
store is empty (or nothing survives the filters). -/
theorem search_over_fetch_score_sort
    (s : Store) (q : List ℚ) (top_k : Nat) (pid aid : Option String)
    (hq : q.length = s.dimension) :
    (∃ res, search s q top_k pid aid = Except.ok res) ∧
    (∀ res, search s q top_k pid aid = Except.ok res →
      List.Sorted (fun a b : SearchResult => b.score ≤ a.score) res ∧
      res.length ≤ top_k ∧
      (s.index = [] → res = []) ∧
      (∀ r ∈ res, ∃ c ∈ faissSearch s.index q (min (top_k * 3) s.index.length),
        0 ≤ c.1 ∧ r.score = 1 / (1 + c.2) ∧
        (∀ p, pid = some p → r.document.project_id = p) ∧
        (∀ a, aid = some a → r.document.asset_id = a))) := by
  haveI instTot : IsTotal SearchResult (fun a b => b.score ≤ a.score) :=
    ⟨fun a b => le_total _ _⟩
  haveI instTrans : IsTrans SearchResult (fun a b => b.score ≤ a.score) :=
    ⟨fun a b c h1 h2 => le_trans h2 h1⟩
  by_cases h0 : s.index.length = 0
  · constructor
    · exact ⟨[], by simp [search, h0]⟩
    · intro res hres
      simp only [search, h0, if_pos] at hres
      cases hres
      exact ⟨List.sorted_nil, Nat.zero_le _, fun _ => rfl, by simp⟩
  · have hdim : ¬(q.length ≠ s.dimension) := by simp [hq]
    constructor
    · cases hsv : search s q top_k pid aid with
      | ok res => exact ⟨res, rfl⟩
      | error e =>
        exfalso
        simp only [search, h0, hdim, if_neg, if_false, ite_false] at hsv
        split at hsv <;> cases hsv
    · intro res hres
      simp only [search, h0, hdim, if_neg, if_false, ite_false] at hres
      split at hres
      · cases hres
        exact ⟨List.sorted_nil, Nat.zero_le _, fun _ => rfl, by simp⟩
      · cases hres
        refine ⟨?_, ?_, ?_, ?_⟩
        · exact List.Pairwise.sublist (List.take_sublist _ _)
            (List.sorted_insertionSort _ _)
        · exact List.length_take_le _ _
        · intro hidx
          exact absurd (by simp [hidx]) h0
        · intro r hr
          have hr1 : r ∈ (faissSearch s.index q (min (top_k * 3) s.index.length)).filterMap _ :=
            ((List.perm_insertionSort _ _).mem_iff).mp (List.mem_of_mem_take hr)
          exact mem_search_results _ s.table _ pid aid r hr1

/-- C4 witness. -/
theorem search_over_fetch_score_sort_witness :
    (∃ res, search storeX [0] 10 none none = Except.ok res) ∧
    (∀ res, search storeX [0] 10 none none = Except.ok res →
      List.Sorted (fun a b : SearchResult => b.score ≤ a.score) res ∧
      res.length ≤ 10 ∧
      (storeX.index = [] → res = []) ∧
      (∀ r ∈ res, ∃ c ∈ faissSearch storeX.index [0] (min (10 * 3) storeX.index.length),
        0 ≤ c.1 ∧ r.score = 1 / (1 + c.2) ∧
        (∀ p, (none : Option String) = some p → r.document.project_id = p) ∧
        (∀ a, (none : Option String) = some a → r.document.asset_id = a))) :=
  search_over_fetch_score_sort storeX [0] 10 none none (by decide)

/-! ## C5 -/

/-- The guarded keyword boost of the source equals the spec's closed min
formula (for zero matches both give 0, since `0 / n * 0.2 = 0`). -/
theorem ite_min_keyword (m n : Nat) :
    (if 0 < m then min (1/5 : ℚ) ((m : ℚ) / (n : ℚ) * (1/5)) else 0)
    = min (1/5 : ℚ) ((m : ℚ) / (n : ℚ) * (1/5)) := by
  split
  · rfl
  · next h =>
    have hm : m = 0 := by omega
    subst hm
    rw [Nat.cast_zero, zero_div, zero_mul, min_eq_right (by norm_num : (0:ℚ) ≤ 1/5)]

/-- The guarded metadata boost of the source equals the spec's closed min
formula. -/
theorem ite_min_metadata (k : Nat) :
    (if 0 < k then min (1/10 : ℚ) ((k : ℚ) * (1/50)) else 0)
    = min (1/10 : ℚ) ((k : ℚ) * (1/50)) := by
  split
  · rfl
  · next h =>
    have hk : k = 0 := by omega
    subst hk
    rw [Nat.cast_zero, zero_mul, min_eq_right (by norm_num : (0:ℚ) ≤ 1/10)]

/-- The branchy per-result score computed by `_rerank_results` equals the
closed-form adjusted score the spec describes. -/
theorem rerankScore_eq_claim (q : String) (r : SearchResult) :
    rerankScore q r = claim_adjusted_score q r := by
  simp only [rerankScore, claim_adjusted_score]
  rw [ite_min_keyword]
  cases hmd : r.document.metadata with
  | none => rfl
  | some md =>
    congr 1
    show (if 0 < md.length then min (1/10 : ℚ) ((md.length : ℚ) * (1/50)) else 0)
      = min (1/10 : ℚ) ((md.length : ℚ) * (1/50))
    exact ite_min_metadata md.length

/-- C5: `_rerank_results` is a pure function of query and candidates: it
returns (a permutation of) one new `SearchResult` per candidate carrying the
spec's adjusted score — base score plus capped keyword boost, length
adjustment, and capped metadata boost — sorted descending by that score.
Determinism and non-mutation are inherent: the model is a function and
builds new records. -/
theorem rerank_results_spec (q : String) (rs : List SearchResult) :
    (rerank_results q rs).Perm
      (rs.map (fun r => { document := r.document, score := claim_adjusted_score q r })) ∧
    List.Sorted (fun a b : SearchResult => b.score ≤ a.score) (rerank_results q rs) := by
  haveI instTot : IsTotal SearchResult (fun a b => b.score ≤ a.score) :=
    ⟨fun a b => le_total _ _⟩
  haveI instTrans : IsTrans SearchResult (fun a b => b.score ≤ a.score) :=
    ⟨fun a b c h1 h2 => le_trans h2 h1⟩
  unfold rerank_results
  by_cases hrs : rs = []
  · subst hrs
    exact ⟨by simp, by simp⟩
  · rw [if_neg hrs]
    have hmap : rs.map (fun r => ({ document := r.document, score := rerankScore q r } : SearchResult))
        = rs.map (fun r => ({ document := r.document, score := claim_adjusted_score q r } : SearchResult)) :=
      List.map_congr_left (fun a _ => by rw [rerankScore_eq_claim])
    constructor
    · rw [hmap]
      exact List.perm_insertionSort _ _
    · exact List.sorted_insertionSort _ _

/-! ## C8 -/

/-- C8 counterexample: with `rerank=True` and a single returned candidate,
the orchestrator skips re-ranking (`len(results) > 1` guard), so the returned
score is the base similarity 1, while the claimed pipeline (re-rank whenever
enabled) would return the adjusted score 19/20 — an observable difference. -/
theorem semantic_search_skips_rerank_on_single_result :
    (semantic_search embed0 storeX "q" none none 10 true).1 =
      .ok [{ document := docOfRow rowX, score := 1 }] ∧
    semantic_search_claimed embed0 storeX "q" none none 10 true =
      .ok [{ document := docOfRow rowX, score := 19/20 }] ∧
    (1 : ℚ) ≠ 19/20 := by
  have hstrip : pyStrip "q" = "q" := by decide
  have hsearch : VectorStore.search storeX [0] 30 none none =
      .ok [{ document := docOfRow rowX, score := 1 }] := by
    norm_num [VectorStore.search, storeX, rowX, faissSearch, l2sq, rowMatches,
      docOfRow, List.insertionSort, List.orderedInsert]
  have hqne : ¬("q" : String) = "" := by decide
  refine ⟨?_, ?_, by norm_num⟩
  · norm_num [semantic_search, hstrip, embed0, hsearch, hqne]
  · have hwords : pySplit (pyLower "q") = ["q"] := by decide
    have hcontains : listContainsSub ("q" : String).data (pyLower "x").data = false := by
      decide
    have hxlen : ("x" : String).length = 1 := by decide
    have hrr : rerank_results "q" [{ document := docOfRow rowX, score := 1 }] =
        [{ document := docOfRow rowX, score := 19/20 }] := by
      norm_num [rerank_results, rerankScore, docOfRow, rowX, hwords, hcontains, hxlen,
        List.insertionSort, List.orderedInsert]
    norm_num [semantic_search_claimed, hstrip, embed0, hsearch, hrr, hqne]

/-- C8 (amended): empty/whitespace queries return `[]` with no embedding
call; otherwise the trimmed query is embedded exactly once, the store is
asked for `top_k * 3` candidates when `rerank` is enabled (else `top_k`),
re-ranking is applied when enabled *and more than one candidate returned*,
and the output is truncated to at most `top_k`. -/
theorem semantic_search_spec (embed : String → List ℚ) (s : Store) (query : String)
    (pid aid : Option String) (top_k : Nat) (rerank : Bool) :
    (pyStrip query = "" →
      semantic_search embed s query pid aid top_k rerank = (.ok [], [])) ∧
    (pyStrip query ≠ "" →
      (semantic_search embed s query pid aid top_k rerank).2 = [pyStrip query] ∧
      (semantic_search embed s query pid aid top_k rerank).1 =
        (match VectorStore.search s (embed (pyStrip query))
            (if rerank then top_k * 3 else top_k) pid aid with
         | .error e => .error (SSErr.vectorStore e)
         | .ok results =>
           .ok ((if rerank ∧ 1 < results.length then rerank_results query results
                 else results).take top_k)) ∧
      (∀ res, (semantic_search embed s query pid aid top_k rerank).1 = .ok res →
        res.length ≤ top_k)) := by
  constructor
  · intro hq
    have hcond : query = "" ∨ pyStrip query = "" := Or.inr hq
    simp [semantic_search, hcond]
  · intro hq
    have hne : ¬(query = "" ∨ pyStrip query = "") := by
      rintro (h1 | h2)
      · subst h1; exact hq rfl
      · exact hq h2
    simp only [semantic_search, hne, if_false, ite_false, if_neg]
    cases hsv : VectorStore.search s (embed (pyStrip query))
        (if rerank then top_k * 3 else top_k) pid aid with
    | error e =>
      refine ⟨rfl, rfl, ?_⟩
      intro res h
      cases h
    | ok results =>
      refine ⟨?_, ?_, ?_⟩
      · by_cases hres : results = [] <;> simp [hres]
      · by_cases hres : results = [] <;> simp [hres]
      · intro res h
        by_cases hres : results = []
        · subst hres
          simp at h
          subst h
          simp
        · simp [hres] at h
          subst h
          exact List.length_take_le _ _

/-- C8 witness. -/
theorem semantic_search_spec_witness :
    (semantic_search embed0 storeX "hi" none none 10 false).2 = [pyStrip "hi"] ∧
    (semantic_search embed0 storeX "hi" none none 10 false).1 =
      (match VectorStore.search storeX (embed0 (pyStrip "hi"))
          (if false then 10 * 3 else 10) none none with
       | .error e => .error (SSErr.vectorStore e)
       | .ok results =>
         .ok ((if false ∧ 1 < results.length then rerank_results "hi" results
               else results).take 10)) ∧
    (∀ res, (semantic_search embed0 storeX "hi" none none 10 false).1 = .ok res →
      res.length ≤ 10) :=
  (semantic_search_spec embed0 storeX "hi" none none 10 false).2 (by decide)

/-! ## C6 -/

/-- `i in indices` in the re-interleaving loop is exactly "the i-th text is
non-blank". -/
theorem contains_nonEmptyIndices (texts : List String) (m : Nat) (hm : m < texts.length) :
    (nonEmptyIndices texts).contains m = decide (pyStrip (texts.getD m "") ≠ "") := by
  have hmem : m ∈ nonEmptyIndices texts ↔ pyStrip (texts.getD m "") ≠ "" := by
    unfold nonEmptyIndices
    constructor
    · intro h
      obtain ⟨p, hp, hpm⟩ := List.mem_map.mp h
      obtain ⟨hpe, hP⟩ := List.mem_filter.mp hp
      have hg := List.mem_enum_iff_getElem?.mp hpe
      subst hpm
      have hgd : texts.getD p.1 "" = p.2 := by
        rw [List.getD_eq_getElem?_getD, hg]
        rfl
      rw [hgd]
      exact of_decide_eq_true hP
    · intro h
      apply List.mem_map.mpr
      refine ⟨(m, texts.getD m ""), ?_, rfl⟩
      apply List.mem_filter.mpr
      constructor
      · apply List.mk_mem_enum_iff_getElem?.mpr
        rw [List.getElem?_eq_getElem hm, List.getD_eq_getElem _ _ hm]
      · exact decide_eq_true h
  by_cases ht : pyStrip (texts.getD m "") ≠ ""
  · rw [decide_eq_true ht]
    exact List.elem_iff.mpr (hmem.mpr ht)
  · rw [decide_eq_false ht]
    exact Bool.eq_false_iff.mpr (fun hc => ht (hmem.mp (List.elem_iff.mp hc)))

/-- The re-interleaving loop reproduces, position by position, "zero vector
for blank texts, model vector otherwise". -/
theorem interleaveLoop_eq_map (dim : Nat) (encode : String → List ℚ) :
    ∀ (ts : List String) (indices : List Nat) (embs : List (List ℚ)) (n eidx : Nat),
      (∀ m, m < ts.length → indices.contains (n + m) = decide (pyStrip (ts.getD m "") ≠ "")) →
      (∀ j, embs.getD (eidx + j) [] =
        ((ts.filter (fun t => pyStrip t ≠ "")).map encode).getD j []) →
      interleaveLoop dim indices embs ts.length n eidx
        = ts.map (fun t => if pyStrip t = "" then List.replicate dim 0 else encode t) := by
  intro ts
  induction ts with
  | nil =>
    intro indices embs n eidx h1 h2
    rfl
  | cons t ts ih =>
    intro indices embs n eidx h1 h2
    have hcont : indices.contains n = decide (pyStrip t ≠ "") := by
      have := h1 0 (Nat.succ_pos _)
      simpa using this
    have h1rec : ∀ m, m < ts.length →
        indices.contains (n + 1 + m) = decide (pyStrip (ts.getD m "") ≠ "") := by
      intro m hm
      have harg : n + 1 + m = n + (m + 1) := by omega
      rw [harg]
      have := h1 (m + 1) (Nat.succ_lt_succ hm)
      simpa using this
    by_cases ht : pyStrip t = ""
    · have hcf : indices.contains n = false := by
        rw [hcont]
        simp [ht]
      have hrec := ih indices embs (n + 1) eidx h1rec
        (by
          intro j
          have := h2 j
          rw [List.filter_cons] at this
          simpa [ht] using this)
      have step : interleaveLoop dim indices embs (ts.length + 1) n eidx
          = List.replicate dim 0 :: interleaveLoop dim indices embs ts.length (n + 1) eidx := by
        simp only [interleaveLoop]
        rw [if_neg (by rw [hcf]; exact Bool.false_ne_true)]
      rw [List.length_cons, step, hrec, List.map_cons, if_pos ht]
    · have hctrue : indices.contains n = true := by
        rw [hcont]
        simp [ht]
      have hhead : embs.getD eidx [] = encode t := by
        have := h2 0
        rw [List.filter_cons] at this
        simpa [ht] using this
      have hrec := ih indices embs (n + 1) (eidx + 1) h1rec
        (by
          intro j
          have := h2 (j + 1)
          have harg : eidx + (j + 1) = eidx + 1 + j := by omega
          rw [harg] at this
          rw [List.filter_cons] at this
          simpa [ht] using this)
      have step : interleaveLoop dim indices embs (ts.length + 1) n eidx
          = embs.getD eidx [] :: interleaveLoop dim indices embs ts.length (n + 1) (eidx + 1) := by
        simp only [interleaveLoop]
        rw [if_pos (by rw [hctrue])]
      rw [List.length_cons, step, hhead, hrec, List.map_cons, if_neg ht]

/-- `generate_embeddings_batch` is, value for value, "zero vector for blank
entries, per-text model vector otherwise". -/
theorem generate_embeddings_batch_eq_map (encode : String → List ℚ) (dim : Nat)
    (texts : List String) :
    generate_embeddings_batch encode dim texts
      = texts.map (fun t => if pyStrip t = "" then List.replicate dim 0 else encode t) := by
  by_cases h0 : texts = []
  · subst h0
    rfl
  · by_cases hne : texts.filter (fun t => pyStrip t ≠ "") = []
    · have hall : ∀ t ∈ texts, pyStrip t = "" := by
        intro t ht
        have := List.filter_eq_nil_iff.mp hne t ht
        simpa using this
      have hmap : texts.map (fun t => if pyStrip t = "" then List.replicate dim 0 else encode t)
          = texts.map (fun _ => List.replicate dim 0) :=
        List.map_congr_left (fun t ht => by rw [if_pos (hall t ht)])
      simp only [generate_embeddings_batch, h0, hne, if_neg, if_pos, ite_false, ite_true]
      rw [hmap]
      simp
    · simp only [generate_embeddings_batch]
      rw [if_neg h0, if_neg hne]
      apply interleaveLoop_eq_map
      · intro m hm
        simpa using contains_nonEmptyIndices texts m hm
      · intro j
        simp

/-- C6: the batch returns exactly one vector per input in order; blank
entries map to the zero vector of the model dimension and are exactly the
entries withheld from the model (the model input is the non-blank filter);
every entry agrees with `generate_embedding` run on that text alone, and
`generate_embedding` of an empty text is the zero vector. -/
theorem generate_embeddings_batch_spec (encode : String → List ℚ) (dim : Nat)
    (texts : List String) (i : Nat) (hi : i < texts.length) :
    (generate_embeddings_batch encode dim texts).length = texts.length ∧
    generate_embedding encode dim "" = List.replicate dim 0 ∧
    (generate_embeddings_batch encode dim texts).getD i []
      = generate_embedding encode dim (texts.getD i "") ∧
    (pyStrip (texts.getD i "") = "" →
      (generate_embeddings_batch encode dim texts).getD i [] = List.replicate dim 0) ∧
    (∀ t ∈ texts.filter (fun t => pyStrip t ≠ ""), pyStrip t ≠ "") := by
  have hmap := generate_embeddings_batch_eq_map encode dim texts
  have hempty : pyStrip "" = "" := by decide
  have hgetd :
      (generate_embeddings_batch encode dim texts).getD i []
        = (if pyStrip (texts.getD i "") = "" then List.replicate dim 0
           else encode (texts.getD i "")) := by
    rw [hmap]
    have hi' : i < (texts.map
        (fun t => if pyStrip t = "" then List.replicate dim 0 else encode t)).length := by
      simpa using hi
    rw [List.getD_eq_getElem _ _ hi', List.getElem_map, List.getD_eq_getElem _ _ hi]
  refine ⟨?_, ?_, ?_, ?_, ?_⟩
  · rw [hmap, List.length_map]
  · simp [generate_embedding, hempty]
  · rw [hgetd]
    simp [generate_embedding]
  · intro h
    rw [hgetd, if_pos h]
  · intro t ht
    have := (List.mem_filter.mp ht).2
    simpa using this

/-- C6 witness. -/
theorem generate_embeddings_batch_spec_witness :
    (generate_embeddings_batch embed0 1 ["a", " "]).length = (["a", " "] : List String).length ∧
    generate_embedding embed0 1 "" = List.replicate 1 0 ∧
    (generate_embeddings_batch embed0 1 ["a", " "]).getD 0 []
      = generate_embedding embed0 1 ((["a", " "] : List String).getD 0 "") ∧
    (pyStrip ((["a", " "] : List String).getD 0 "") = "" →
      (generate_embeddings_batch embed0 1 ["a", " "]).getD 0 [] = List.replicate 1 0) ∧
    (∀ t ∈ (["a", " "] : List String).filter (fun t => pyStrip t ≠ ""), pyStrip t ≠ "") :=
  generate_embeddings_batch_spec embed0 1 ["a", " "] 0 (by decide)

/-! ## C2 -/

/-- Saving the current (non-empty) chunk preserves the loop invariant. -/
theorem chunkInv_push (tok : String → Nat) (htok : ∀ s : String, s ≠ "" → 0 < tok s)
    (st : ChunkState) (h : ChunkInv st) (hcur : st.cur ≠ "") :
    ChunkInv (pushChunk tok st) := by
  obtain ⟨hidx, hprops⟩ := h
  constructor
  · simp [pushChunk, hidx]
  · intro j hj
    simp only [pushChunk, List.get_eq_getElem] at hj ⊢
    rw [List.length_append, List.length_singleton] at hj
    by_cases hlt : j < st.chunks.length
    · rw [List.getElem_append_left hlt]
      simpa [List.get_eq_getElem] using hprops j hlt
    · have hj' : j = st.chunks.length := by omega
      subst hj'
      rw [List.getElem_append_right (le_refl _)]
      simp only [Nat.sub_self, List.getElem_singleton]
      refine ⟨hidx, ?_, htok _ hcur⟩
      have hpos : 0 < (st.cur.length : Int) := by
        exact_mod_cast string_length_pos hcur
      omega

/-- The inner word-part loop body preserves the invariant. -/
theorem chunkInv_processPart (tok : String → Nat) (eo : String → Nat → String)
    (chunk_size chunk_overlap : Nat) (htok : ∀ s : String, s ≠ "" → 0 < tok s)
    (st : ChunkState) (part : String) (h : ChunkInv st) :
    ChunkInv (processPart tok eo chunk_size chunk_overlap st part) := by
  simp only [processPart]
  by_cases hc2 : st.cur ≠ ""
  · simp only [if_pos hc2]
    by_cases hc1 : tok (pyStrip (st.cur ++ " " ++ part)) ≤ chunk_size
    · rw [if_pos hc1]
      exact h
    · rw [if_neg hc1]
      by_cases hc3 : 0 < chunk_overlap
      · rw [if_pos hc3]
        exact chunkInv_push tok htok st h hc2
      · rw [if_neg hc3]
        exact chunkInv_push tok htok st h hc2
  · simp only [if_neg hc2]
    by_cases hc1 : tok part ≤ chunk_size
    · rw [if_pos hc1]
      exact h
    · rw [if_neg hc1]
      exact h

/-- Invariant preservation through a fold. -/
theorem chunkInv_foldl {α : Type} (f : ChunkState → α → ChunkState)
    (hf : ∀ st x, ChunkInv st → ChunkInv (f st x)) :
    ∀ (l : List α) (st : ChunkState), ChunkInv st → ChunkInv (l.foldl f st) := by
  intro l
  induction l with
  | nil => intro st h; exact h
  | cons x xs ih =>
    intro st h
    exact ih _ (hf st x h)

/-- The outer sentence loop body preserves the invariant. -/
theorem chunkInv_processSentence (tok : String → Nat) (eo : String → Nat → String)
    (chunk_size chunk_overlap : Nat) (htok : ∀ s : String, s ≠ "" → 0 < tok s)
    (st : ChunkState) (sentence : String) (h : ChunkInv st) :
    ChunkInv (processSentence tok eo chunk_size chunk_overlap st sentence) := by
  simp only [processSentence]
  by_cases hc1 : tok (pyStrip (st.cur ++ " " ++ sentence)) ≤ chunk_size
  · rw [if_pos hc1]
    exact h
  · rw [if_neg hc1]
    by_cases hc4 : chunk_size < tok sentence
    · rw [if_pos hc4]
      apply chunkInv_foldl _
        (fun s x hs => chunkInv_processPart tok eo chunk_size chunk_overlap htok s x hs)
      by_cases hc2 : st.cur ≠ ""
      · rw [if_pos hc2]
        by_cases hc3 : 0 < chunk_overlap
        · rw [if_pos hc3]
          exact chunkInv_push tok htok st h hc2
        · rw [if_neg hc3]
          exact chunkInv_push tok htok st h hc2
      · rw [if_neg hc2]
        exact h
    · rw [if_neg hc4]
      by_cases hc2 : st.cur ≠ ""
      · rw [if_pos hc2]
        by_cases hc3 : 0 < chunk_overlap
        · rw [if_pos hc3]
          exact chunkInv_push tok htok st h hc2
        · rw [if_neg hc3]
          exact chunkInv_push tok htok st h hc2
      · rw [if_neg hc2]
        exact h

/-- C2 (amended): for every tokenizer with positive counts on non-empty
strings, the chunks returned by `chunk_text` carry chunk_index 0,1,2,...,
have `end_char > start_char` and `token_count > 0`, and empty or
whitespace-only input yields the empty list.  (The coverage part of the
original claim is false: see the counterexample.) -/
theorem chunk_text_spans_and_indices (tok : String → Nat) (eo : String → Nat → String)
    (chunk_size chunk_overlap : Nat) (text : String)
    (htok : ∀ s : String, s ≠ "" → 0 < tok s) :
    (∀ j (hj : j < (chunk_text tok eo chunk_size chunk_overlap text).length),
      ((chunk_text tok eo chunk_size chunk_overlap text).get ⟨j, hj⟩).chunk_index = j ∧
      ((chunk_text tok eo chunk_size chunk_overlap text).get ⟨j, hj⟩).start_char <
        ((chunk_text tok eo chunk_size chunk_overlap text).get ⟨j, hj⟩).end_char ∧
      0 < ((chunk_text tok eo chunk_size chunk_overlap text).get ⟨j, hj⟩).token_count) ∧
    (pyStrip text = "" → chunk_text tok eo chunk_size chunk_overlap text = []) := by
  have hinit : ChunkInv { chunks := [], cur := "", curStart := 0, idx := 0 } := by
    constructor
    · rfl
    · intro j hj
      exact absurd hj (by simp)
  have hinv : ChunkInv ((split_text_at_sentences text).foldl
      (processSentence tok eo chunk_size chunk_overlap)
      { chunks := [], cur := "", curStart := 0, idx := 0 }) :=
    chunkInv_foldl _
      (fun s x hs => chunkInv_processSentence tok eo chunk_size chunk_overlap htok s x hs)
      _ _ hinit
  have hex : ∃ st : ChunkState, ChunkInv st ∧
      chunk_text tok eo chunk_size chunk_overlap text = st.chunks := by
    simp only [chunk_text]
    split
    · exact ⟨{ chunks := [], cur := "", curStart := 0, idx := 0 }, hinit, rfl⟩
    · split
      · next hcur =>
        exact ⟨pushChunk tok _, chunkInv_push tok htok _ hinv hcur, rfl⟩
      · exact ⟨_, hinv, rfl⟩
  obtain ⟨st, hst, heq⟩ := hex
  constructor
  · rw [heq]
    exact hst.2
  · intro hstrip
    simp only [chunk_text]
    rw [if_pos (Or.inr hstrip)]

/-- C2 witness. -/
theorem chunk_text_spans_and_indices_witness :
    (∀ j (hj : j < (chunk_text tokLen extract_overlap_fallback 500 50 "Hello world.").length),
      ((chunk_text tokLen extract_overlap_fallback 500 50 "Hello world.").get ⟨j, hj⟩).chunk_index = j ∧
      ((chunk_text tokLen extract_overlap_fallback 500 50 "Hello world.").get ⟨j, hj⟩).start_char <
        ((chunk_text tokLen extract_overlap_fallback 500 50 "Hello world.").get ⟨j, hj⟩).end_char ∧
      0 < ((chunk_text tokLen extract_overlap_fallback 500 50 "Hello world.").get ⟨j, hj⟩).token_count) ∧
    (pyStrip "Hello world." = "" → chunk_text tokLen extract_overlap_fallback 500 50 "Hello world." = []) :=
  chunk_text_spans_and_indices tokLen extract_overlap_fallback 500 50 "Hello world."
    (fun s hs => string_length_pos hs)

/-- C2 counterexample: on input "A. B." (5 characters), the single produced
chunk spans `[0, 3)` — the sentence splitter drops the punctuation and the
separating whitespace — so position 3 of the input is covered by no chunk:
the spans do not cover the input text.  (On this input the only tokenizer
facts the branches consult are counts of "A" and "A B" being ≤ 500, true for
cl100k_base and for the `tokLen` stand-in alike, so the spans coincide with a
real run; the overlap extractor is never consulted.) -/
theorem chunk_spans_do_not_cover_input :
    chunk_text tokLen extract_overlap_fallback 500 50 "A. B."
      = [{ text := "A B", chunk_index := 0, start_char := 0, end_char := 3, token_count := 3 }] ∧
    ("A. B." : String).length = 5 ∧
    (∀ c ∈ chunk_text tokLen extract_overlap_fallback 500 50 "A. B.",
      ¬(c.start_char ≤ 3 ∧ (3 : Int) < c.end_char)) := by
  decide
